import Mathlib

/-!
Verification of the Tullo real-time chat backend core against its
natural-language specification.

Shallow embedding conventions:
* UUIDs are modelled as `Nat` identifiers.
* `time.Time` / `time.Duration` values are modelled as `Int` nanoseconds
  (wall-clock reads become explicit `now` parameters).
* Go `float64` arithmetic in the token buckets is modelled over `ℚ`.
* Go maps are modelled as association lists (with a proved no-duplicate-keys
  invariant) or as total functions with a default, matching Go's
  zero-value-on-missing-key semantics where the code relies on it.
* Fallible collaborator calls (repositories, Redis) are modelled as
  `Except Unit` / `Option` valued inputs to the pure step functions.
-/

namespace Tullo

/-! ### Hub registry (src/unnamed/part_005, `Hub.Run`)

The Go `Hub` keeps `clients map[uuid.UUID]*Client`.  A `Client` here is
reduced to the two fields the registry logic touches: its `userID` (the map
key) and a connection identity standing for the pointer / `send` channel.
The registry map is embedded as an association list from user ID to
connection ID; `closed` records the connection IDs whose `send` channel the
hub has closed. -/

structure HClient where
  userID : Nat
  connID : Nat
deriving DecidableEq, Repr

structure HubState where
  clients : List (Nat × Nat)
  closed : List Nat
deriving DecidableEq, Repr

/-- Go map read `h.clients[k]` (presence + value). -/
def mapGet (l : List (Nat × Nat)) (k : Nat) : Option Nat :=
  match l with
  | [] => none
  | (k0, v0) :: rest => if k0 = k then some v0 else mapGet rest k

/-- Go map write `h.clients[k] = v`: replaces the entry for `k` if present,
otherwise adds one. -/
def mapSet (l : List (Nat × Nat)) (k v : Nat) : List (Nat × Nat) :=
  match l with
  | [] => [(k, v)]
  | (k0, v0) :: rest => if k0 = k then (k, v) :: rest else (k0, v0) :: mapSet rest k v

/-- Go map delete `delete(h.clients, k)` (removes the entry for `k`). -/
def mapDel (l : List (Nat × Nat)) (k : Nat) : List (Nat × Nat) :=
  match l with
  | [] => []
  | (k0, v0) :: rest => if k0 = k then rest else (k0, v0) :: mapDel rest k

/-- Number of entries an association list holds for key `k`. -/
def keyCount (l : List (Nat × Nat)) (k : Nat) : Nat :=
  match l with
  | [] => 0
  | (k0, _) :: rest => (if k0 = k then 1 else 0) + keyCount rest k

inductive HubOp where
  | register (c : HClient)
  | unregister (c : HClient)
deriving DecidableEq, Repr

/-- One iteration of `Hub.Run`'s select loop on the register/unregister
channels (part_005 lines 51-109).  Register: `h.clients[client.userID] =
client`.  Unregister: `if _, ok := h.clients[client.userID]; ok {
delete(h.clients, client.userID); close(client.send) }` — note the guard
checks only that SOME entry exists for the user ID, not that it is this
client, and the deleted entry may therefore belong to a different (newer)
connection, while the channel closed is the unregistering client's own. -/
def hubStep (st : HubState) (op : HubOp) : HubState :=
  match op with
  | .register c => { st with clients := mapSet st.clients c.userID c.connID }
  | .unregister c =>
    match mapGet st.clients c.userID with
    | some _ =>
      { clients := mapDel st.clients c.userID, closed := st.closed ++ [c.connID] }
    | none => st

def hubInit : HubState := ⟨[], []⟩

def hubRun (st : HubState) (ops : List HubOp) : HubState :=
  ops.foldl hubStep st

/-! ### Moderation bot (src/unnamed/part_003, `Bot.processMessage`)

`models.Message` is reduced to the fields the bot reads; `models.BannedWord`
to its `Word` field.  The per-sender recent-message map
`recent map[uuid.UUID][]recentMsg` is a total function with default `[]`,
matching Go's zero value for a missing key.  External side effects
(`msgRepo.Delete`, `modRepo.AddLog`, `convRepo.AddModeration`) become an
ordered effect list. -/

structure Message where
  id : Nat
  conversationID : Nat
  senderID : Nat
  body : String
deriving DecidableEq, Repr

structure BannedWord where
  word : String
deriving DecidableEq, Repr

structure RecentMsg where
  body : String
  ts : Int
deriving DecidableEq, Repr

/-- `10 * time.Second` in nanoseconds. -/
def spamWindowNs : Int := 10000000000

/-- `5 * time.Minute` in nanoseconds (mute expiry offset from the clock). -/
def muteDurationNs : Int := 300000000000

inductive BotEffect where
  | deleteMessage (id : Nat)
  | addLog (action : String) (reason : String) (messageID : Nat) (targetUserID : Nat)
  | addModeration (conversationID : Nat) (userID : Nat) (action : String) (durationNs : Int)
deriving DecidableEq, Repr

/-- Whether the pattern (second argument) occurs at the head of the text
(first argument). -/
def matchesAtHead : List Char → List Char → Bool
  | _, [] => true
  | [], _ :: _ => false
  | c :: s, d :: t => c = d && matchesAtHead s t

/-- Whether the pattern occurs at some position of the text. -/
def containsSeq : List Char → List Char → Bool
  | [], sub => matchesAtHead [] sub
  | c :: rest, sub => matchesAtHead (c :: rest) sub || containsSeq rest sub

/-- Rune lowering as in Go's `unicode.ToLower` on ASCII input (the bot's
banned words and bodies; non-ASCII runes are left unchanged here). -/
def lowerChar (c : Char) : Char :=
  if 'A' ≤ c ∧ c ≤ 'Z' then Char.ofNat (c.toNat + 32) else c

/-- Go `strings.ToLower s` as a rune sequence. -/
def goLower (s : String) : List Char :=
  s.toList.map lowerChar

/-- Go `strings.Contains (strings.ToLower s) (strings.ToLower sub)`: the
case-insensitive substring test the bot applies. -/
def strContains (s sub : String) : Bool :=
  containsSeq (goLower s) (goLower sub)

/-- The bot's banned-word loop: first word of the list whose lowercased text
is a substring of the lowercased body (part_003 lines 84-88 loop header). -/
def findBanned (body : String) : List BannedWord → Option BannedWord
  | [] => none
  | bw :: rest =>
    if strContains body bw.word then some bw
    else findBanned body rest

/-- The pruning loop of part_003 lines 111-121: walk the stored window,
keep entries at most 10 s old, and count kept entries whose body equals the
new message's body. -/
def pruneAndCount (now : Int) (body : String) (arr : List RecentMsg) :
    List RecentMsg × Nat :=
  arr.foldl
    (fun acc rm =>
      if now - rm.ts ≤ spamWindowNs then
        (acc.1 ++ [rm], if rm.body = body then acc.2 + 1 else acc.2)
      else acc)
    ([], 0)

/-- Per-sender recent-message windows (`b.recent`), default `[]`. -/
abbrev Windows : Type := Nat → List RecentMsg

def emptyWindows : Windows := fun _ => []

def setWindow (w : Windows) (u : Nat) (arr : List RecentMsg) : Windows :=
  fun v => if v = u then arr else w v

/-- Steps 2-3 of `Bot.processMessage` (spam detection, part_003 lines
106-144): prune the sender's window, count in-window duplicates of the new
body, append the new message, and if the count of PRIOR duplicates is ≥ 3,
emit mute + `timeout_spam` log + delete of the triggering message (in the
code's call order). -/
def spamCheck (w : Windows) (m : Message) (now : Int) : Windows × List BotEffect :=
  let res := pruneAndCount now m.body (w m.senderID)
  let w' := setWindow w m.senderID (res.1 ++ [⟨m.body, now⟩])
  if 3 ≤ res.2 then
    (w', [.addModeration m.conversationID m.senderID "mute" muteDurationNs,
          .addLog "timeout_spam" "spam repeated" m.id m.senderID,
          .deleteMessage m.id])
  else (w', [])

/-- `Bot.processMessage` (part_003 lines 79-147).  `bannedWordsRes` is the
result of `modRepo.GetBannedWords(m.ConversationID)`; the banned-word filter
runs only under `err == nil && len(bannedWords) > 0`, and on a match emits
delete + `delete_word` log (reason: the matched word) and returns without
touching the sender's window.  Otherwise control falls through to the spam
check. -/
def processMessage (bannedWordsRes : Except Unit (List BannedWord))
    (w : Windows) (m : Message) (now : Int) : Windows × List BotEffect :=
  match bannedWordsRes with
  | .ok bannedWords =>
    if 0 < bannedWords.length then
      match findBanned m.body bannedWords with
      | some bw => (w, [.deleteMessage m.id, .addLog "delete_word" bw.word m.id m.senderID])
      | none => spamCheck w m now
    else spamCheck w m now
  | .error _ => spamCheck w m now

/-- A sequence of messages (each with its arrival time) processed by the bot
with a fixed banned-word lookup result; returns the final windows and each
message's effect list, in order. -/
def runBot (bannedWordsRes : Except Unit (List BannedWord)) (w : Windows) :
    List (Message × Int) → Windows × List (List BotEffect)
  | [] => (w, [])
  | (m, t) :: rest =>
    let r := processMessage bannedWordsRes w m t
    let rr := runBot bannedWordsRes r.1 rest
    (rr.1, r.2 :: rr.2)

/-! ### Dual-tier rate limiter

Local tier: `tokenBucket` and `tokenBucket.allow` from
src/unnamed/part_002 lines 47-73 (float64 arithmetic over ℚ, wall-clock
`now` in seconds as ℚ).  Distributed tier: the Lua script inside
`RedisClient.AllowAction`, src/unnamed/part_007 lines 192-233 (times in
integer milliseconds, Lua number arithmetic over ℚ). -/

structure TokenBucket where
  tokens : ℚ
  lastRefill : ℚ
  rate : ℚ
  capacity : ℚ
deriving DecidableEq, Repr

/-- `tokenBucket.allow` (part_002 lines 55-73): refill from elapsed
wall-clock seconds (only when positive), cap at capacity, then admit iff at
least one token is present, consuming it. -/
def TokenBucket.allow (b : TokenBucket) (now : ℚ) : TokenBucket × Bool :=
  let elapsed := now - b.lastRefill
  let b1 :=
    if 0 < elapsed then
      let t := b.tokens + elapsed * b.rate
      let t := if b.capacity < t then b.capacity else t
      { b with tokens := t, lastRefill := now }
    else b
  if 1 ≤ b1.tokens then ({ b1 with tokens := b1.tokens - 1 }, true)
  else (b1, false)

/-- The Redis hash `rl:<action>:<user>`: `tokens` / `last` fields, each
possibly absent (fresh key). -/
structure RedisBucketState where
  tokens : Option ℚ
  last : Option Int
deriving DecidableEq, Repr

/-- The Lua script of `RedisClient.AllowAction` (part_007 lines 198-219):
missing fields default to `burst` / `now`; `delta` is clamped nonnegative
milliseconds; refill is `min(burst, tokens + delta * rate / 1000)`; admit
iff the refilled count is ≥ 1, consuming one token; either way the refilled
(possibly decremented) count and `now` are stored back. -/
def allowActionLua (st : RedisBucketState) (rate burst : ℚ) (now : Int) :
    RedisBucketState × Bool :=
  let tokens := st.tokens.getD burst
  let last := st.last.getD now
  let delta : Int := max 0 (now - last)
  let newTokens := min burst (tokens + (delta : ℚ) * rate / 1000)
  if 1 ≤ newTokens then (⟨some (newTokens - 1), some now⟩, true)
  else (⟨some newTokens, some now⟩, false)

/-- A sequence of local-tier checks at the given wall-clock times. -/
def runLocalChecks (b : TokenBucket) (ts : List ℚ) : TokenBucket :=
  ts.foldl (fun b t => (b.allow t).1) b

/-- A sequence of distributed-tier checks at the given times (same key,
fixed rate/burst arguments, as `PostChat` always passes). -/
def runRedisChecks (rate burst : ℚ) (st : RedisBucketState) (ts : List Int) :
    RedisBucketState :=
  ts.foldl (fun st t => (allowActionLua st rate burst t).1) st

/-- The rate-limit section of `ChannelChatHandler.PostChat` (part_002 lines
204-235).  `redisRes`: `none` models `h.redis == nil`; `some (.error ())` an
`AllowAction` error; `some (.ok ok)` its verdict.  The Go code sets
`allowed := true`, overwrites it from the Redis result when Redis is
present, and enters the local-bucket branch when `h.redis == nil ||
!allowed`, creating a fresh full bucket for the user if none exists.
Returns the (possibly new) local bucket and whether the post is admitted. -/
def postChatRateLimit (redisRes : Option (Except Unit Bool))
    (localBucket : Option TokenBucket) (localRate localBurst now : ℚ) :
    Option TokenBucket × Bool :=
  let allowed : Bool :=
    match redisRes with
    | none => true
    | some (.error _) => false
    | some (.ok ok) => ok
  if redisRes.isNone || !allowed then
    let b := localBucket.getD ⟨localBurst, now, localRate, localBurst⟩
    let r := b.allow now
    (some r.1, r.2)
  else (localBucket, true)

/-! ### Connection read pump (src/internal/websocket/client.go)

`NewClient` (lines 49-74) fixes the per-connection limiter constants;
`ReadPump` (lines 76-121) applies the integer token bucket to each delivered
frame before handing it to `handleMessage`. -/

structure ClientRL where
  tokens : Int
  maxTokens : Int
  refillPeriod : Int
  lastRefill : Int
deriving DecidableEq, Repr

/-- The limiter fields set by `NewClient`: `tokens: 20, maxTokens: 20,
refillPeriod: time.Second, lastRefill: time.Now()` (ns). -/
def newClientRL (now : Int) : ClientRL :=
  ⟨20, 20, 1000000000, now⟩

/-- The refill step at the top of each `ReadPump` iteration (client.go lines
99-109): when at least one full refill period elapsed, add
`int(elapsed / refillPeriod)` tokens (Go integer division, truncating), cap
at `maxTokens`, and reset `lastRefill`. -/
def refillClientRL (c : ClientRL) (now : Int) : ClientRL :=
  let elapsed := now - c.lastRefill
  if c.refillPeriod ≤ elapsed then
    let t := c.tokens + elapsed.tdiv c.refillPeriod
    let t := if c.maxTokens < t then c.maxTokens else t
    { c with tokens := t, lastRefill := now }
  else c

inductive ReadEffect where
  | pushRateLimitError
  | handleFrame
  | closeConnection
deriving DecidableEq, Repr

/-- One iteration of the `ReadPump` loop (client.go lines 90-120).
`readOk = false` is a transport read error: the loop breaks, which triggers
unregister and closes the connection.  For a delivered frame, refill; with
no token left (`tokens <= 0`) drop the frame and push a `rate_limited`
error, continuing the loop; otherwise consume a token and handle the
frame. -/
def readPumpStep (c : ClientRL) (readOk : Bool) (now : Int) :
    ClientRL × List ReadEffect :=
  if readOk = false then (c, [.closeConnection])
  else
    let c1 := refillClientRL c now
    if c1.tokens ≤ 0 then (c1, [.pushRateLimitError])
    else ({ c1 with tokens := c1.tokens - 1 }, [.handleFrame])

/-! ### Send-message handling (src/internal/websocket/client.go,
`Client.handleMessageSend`, lines 195-230) -/

structure SendPayload where
  conversationID : Nat
  body : String
deriving DecidableEq, Repr

inductive SendEffect where
  | errorToSender (msg : String)
  | publish (m : Message)
deriving DecidableEq, Repr

/-- The collaborator responses observed during one `handleMessageSend` call:
payload decoding, `convRepo.IsMember`, `msgRepo.Create`, plus the fresh
message ID drawn from `uuid.New()`. -/
structure SendEnv where
  decoded : Option SendPayload
  isMember : Except Unit Bool
  createRes : Except Unit Unit
  newID : Nat

/-- `Client.handleMessageSend`: decode failure → "Invalid message payload"
to the sender; `IsMember` error or false → "Access denied"; `Create` error →
"Failed to send message"; only after all three succeed is the
`message.new` event published to Redis. -/
def handleMessageSend (userID : Nat) (env : SendEnv) : List SendEffect :=
  match env.decoded with
  | none => [.errorToSender "Invalid message payload"]
  | some req =>
    match env.isMember with
    | .error _ => [.errorToSender "Access denied"]
    | .ok isMember =>
      if isMember = false then [.errorToSender "Access denied"]
      else
        let message : Message := ⟨env.newID, req.conversationID, userID, req.body⟩
        match env.createRes with
        | .error _ => [.errorToSender "Failed to send message"]
        | .ok _ => [.publish message]

/-! ### Error notification (src/internal/websocket/client.go,
`Client.sendError`, lines 305-319)

The outbound channel `c.send` has buffer capacity 256 (`NewClient`); the
queue is modelled as the list of buffered wire frames.  `sendError` performs
`select { case c.send <- data: default: }`: enqueue if the buffer has room,
otherwise silently drop the error frame. -/

def wsSendCapacity : Nat := 256

def sendError (queue : List String) (msg : String) : List String :=
  if queue.length < wsSendCapacity then queue ++ [msg] else queue

/-! ## Association-list lemmas for the hub registry -/

theorem keyCount_cons (k0 v0 k : Nat) (tl : List (Nat × Nat)) :
    keyCount ((k0, v0) :: tl) k = (if k0 = k then 1 else 0) + keyCount tl k := rfl

theorem mapSet_cons (k0 v0 k v : Nat) (tl : List (Nat × Nat)) :
    mapSet ((k0, v0) :: tl) k v =
      if k0 = k then (k, v) :: tl else (k0, v0) :: mapSet tl k v := rfl

theorem mapDel_cons (k0 v0 k : Nat) (tl : List (Nat × Nat)) :
    mapDel ((k0, v0) :: tl) k =
      if k0 = k then tl else (k0, v0) :: mapDel tl k := rfl

theorem mapGet_cons (k0 v0 k : Nat) (tl : List (Nat × Nat)) :
    mapGet ((k0, v0) :: tl) k = if k0 = k then some v0 else mapGet tl k := rfl

theorem mapGet_mapSet_self (l : List (Nat × Nat)) (k v : Nat) :
    mapGet (mapSet l k v) k = some v := by
  induction l with
  | nil => simp [mapSet, mapGet]
  | cons hd tl ih =>
    obtain ⟨k0, v0⟩ := hd
    rw [mapSet_cons]
    by_cases h : k0 = k
    · rw [if_pos h, mapGet_cons, if_pos rfl]
    · rw [if_neg h, mapGet_cons, if_neg h]
      exact ih

theorem keyCount_mapSet_ne (l : List (Nat × Nat)) (k v k' : Nat) (h : k ≠ k') :
    keyCount (mapSet l k v) k' = keyCount l k' := by
  induction l with
  | nil => simp [mapSet, keyCount, h]
  | cons hd tl ih =>
    obtain ⟨k0, v0⟩ := hd
    rw [mapSet_cons]
    by_cases hk : k0 = k
    · rw [if_pos hk, keyCount_cons, keyCount_cons, hk]
    · rw [if_neg hk, keyCount_cons, keyCount_cons, ih]

theorem keyCount_mapSet_self (l : List (Nat × Nat)) (k v : Nat)
    (h : keyCount l k ≤ 1) : keyCount (mapSet l k v) k ≤ 1 := by
  induction l with
  | nil => simp [mapSet, keyCount]
  | cons hd tl ih =>
    obtain ⟨k0, v0⟩ := hd
    rw [keyCount_cons] at h
    rw [mapSet_cons]
    by_cases hk : k0 = k
    · rw [if_pos hk] at h ⊢
      rw [keyCount_cons, if_pos rfl]
      omega
    · rw [if_neg hk] at h ⊢
      rw [keyCount_cons, if_neg hk]
      have := ih (by omega)
      omega

theorem keyCount_mapDel_le (l : List (Nat × Nat)) (k k' : Nat) :
    keyCount (mapDel l k) k' ≤ keyCount l k' := by
  induction l with
  | nil => simp [mapDel]
  | cons hd tl ih =>
    obtain ⟨k0, v0⟩ := hd
    rw [mapDel_cons, keyCount_cons]
    by_cases hk : k0 = k
    · rw [if_pos hk]
      omega
    · rw [if_neg hk, keyCount_cons]
      omega

/-- The per-step preservation of the at-most-one-entry property. -/
theorem hubStep_keyCount (st : HubState) (op : HubOp)
    (h : ∀ k, keyCount st.clients k ≤ 1) :
    ∀ k, keyCount (hubStep st op).clients k ≤ 1 := by
  intro k
  match op with
  | .register c =>
    by_cases hk : c.userID = k
    · subst hk
      exact keyCount_mapSet_self _ _ _ (h _)
    · simpa [hubStep, keyCount_mapSet_ne _ _ _ _ hk] using h k
  | .unregister c =>
    simp only [hubStep]
    cases hg : mapGet st.clients c.userID with
    | some v => exact le_trans (keyCount_mapDel_le _ _ _) (h k)
    | none => exact h k

theorem hubRun_keyCount (ops : List HubOp) (st : HubState)
    (h : ∀ k, keyCount st.clients k ≤ 1) :
    ∀ k, keyCount (hubRun st ops).clients k ≤ 1 := by
  induction ops generalizing st with
  | nil => exact h
  | cons op rest ih => exact ih (hubStep st op) (hubStep_keyCount st op h)

theorem mapGet_eq_none_of_keyCount_zero (l : List (Nat × Nat)) (k : Nat)
    (h : keyCount l k = 0) : mapGet l k = none := by
  induction l with
  | nil => simp [mapGet]
  | cons hd tl ih =>
    obtain ⟨k0, v0⟩ := hd
    rw [keyCount_cons] at h
    rw [mapGet_cons]
    by_cases hk : k0 = k
    · rw [if_pos hk] at h
      omega
    · rw [if_neg hk] at h
      rw [if_neg hk]
      exact ih (by omega)

theorem mapGet_mapDel_self (l : List (Nat × Nat)) (k : Nat)
    (h : keyCount l k ≤ 1) : mapGet (mapDel l k) k = none := by
  induction l with
  | nil => simp [mapDel, mapGet]
  | cons hd tl ih =>
    obtain ⟨k0, v0⟩ := hd
    rw [keyCount_cons] at h
    rw [mapDel_cons]
    by_cases hk : k0 = k
    · rw [if_pos hk] at h ⊢
      exact mapGet_eq_none_of_keyCount_zero tl k (by omega)
    · rw [if_neg hk] at h ⊢
      rw [mapGet_cons, if_neg hk]
      exact ih (by omega)

/-! ## C1 — hub registry under Register/Unregister -/

/-- C1 (counterexample): the claim asserts that an `Unregister` carrying a
connection already superseded by a later `Register` for the same principal
removes nothing.  On the code it is false: after registering connection 1
for principal 7, registering connection 2 for principal 7, and then
unregistering the stale connection 1, the registry holds NO entry for
principal 7 — the stale unregister deleted the current connection 2's
entry (the guard in `Hub.Run` checks only that some entry exists for the
user ID, not that it is the unregistering connection). -/
theorem C1_hub_registry_cex :
    hubRun hubInit
      [.register ⟨7, 1⟩, .register ⟨7, 2⟩, .unregister ⟨7, 1⟩] =
      ⟨[], [1]⟩ ∧
    mapGet (hubRun hubInit
      [.register ⟨7, 1⟩, .register ⟨7, 2⟩, .unregister ⟨7, 1⟩]).clients 7 ≠
      some 2 := by
  constructor
  · decide
  · decide

/-- C1 (amended): for every sequence of Register/Unregister operations, the
registry holds at most one entry per principal, and immediately after a
Register that entry is the just-registered connection; an Unregister for a
principal removes that principal's entry whenever ANY entry exists —
including an entry belonging to a later connection that superseded the
unregistering one — and closes the unregistering connection's own outbound
queue, while an Unregister for a principal with no entry changes nothing. -/
theorem C1_hub_registry :
    (∀ ops : List HubOp, ∀ k : Nat,
      keyCount (hubRun hubInit ops).clients k ≤ 1) ∧
    (∀ st : HubState, ∀ c : HClient,
      mapGet (hubStep st (.register c)).clients c.userID = some c.connID) ∧
    (∀ st : HubState, ∀ c : HClient,
      (∀ k, keyCount st.clients k ≤ 1) →
      (mapGet st.clients c.userID).isSome = true →
      mapGet (hubStep st (.unregister c)).clients c.userID = none ∧
      (hubStep st (.unregister c)).closed = st.closed ++ [c.connID]) ∧
    (∀ st : HubState, ∀ c : HClient,
      mapGet st.clients c.userID = none →
      hubStep st (.unregister c) = st) := by
  refine ⟨?_, ?_, ?_, ?_⟩
  · intro ops k
    exact hubRun_keyCount ops hubInit (by intro k; simp [hubInit, keyCount]) k
  · intro st c
    simp [hubStep, mapGet_mapSet_self]
  · intro st c hinv hsome
    cases hg : mapGet st.clients c.userID with
    | none => simp [hg] at hsome
    | some v =>
      constructor
      · simp only [hubStep, hg]
        exact mapGet_mapDel_self _ _ (hinv _)
      · simp [hubStep, hg]
  · intro st c hnone
    simp [hubStep, hnone]

/-- C1 witness: the amended theorem applied at a concrete state — a
registry holding connection 2 for principal 7, unregistered by the stale
connection 1 — removes that entry and closes queue 1. -/
theorem C1_hub_registry_witness :
    mapGet (hubStep ⟨[(7, 2)], []⟩ (.unregister ⟨7, 1⟩)).clients 7 = none ∧
    (hubStep ⟨[(7, 2)], []⟩ (.unregister ⟨7, 1⟩)).closed = [] ++ [1] :=
  C1_hub_registry.2.2.1 ⟨[(7, 2)], []⟩ ⟨7, 1⟩
    (by intro k; by_cases h : 7 = k <;> simp [keyCount, h]) (by decide)

/-! ## Rate limiter lemmas -/

theorem ite_lt_eq_min (a b : ℚ) : (if a < b then a else b) = min a b := by
  by_cases h : a < b
  · rw [if_pos h]
    exact (min_eq_left h.le).symm
  · rw [if_neg h]
    exact (min_eq_right (le_of_not_lt h)).symm

/-- Closed form of one local-tier check under a monotone clock and an
in-range stored count. -/
theorem tokenBucket_allow_eq (b : TokenBucket) (now : ℚ)
    (hlt : b.lastRefill ≤ now) (hcap : b.tokens ≤ b.capacity) :
    b.allow now =
      (if 1 ≤ min b.capacity (b.tokens + (now - b.lastRefill) * b.rate) then
        ({ tokens := min b.capacity (b.tokens + (now - b.lastRefill) * b.rate) - 1,
           lastRefill := now, rate := b.rate, capacity := b.capacity }, true)
      else
        ({ tokens := min b.capacity (b.tokens + (now - b.lastRefill) * b.rate),
           lastRefill := now, rate := b.rate, capacity := b.capacity }, false)) := by
  unfold TokenBucket.allow
  by_cases hpos : 0 < now - b.lastRefill
  · simp only [if_pos hpos, ite_lt_eq_min]
  · have h0 : now - b.lastRefill = 0 := le_antisymm (le_of_not_lt hpos) (by linarith)
    have hnow : now = b.lastRefill := by linarith
    simp only [if_neg hpos, h0, zero_mul, add_zero, min_eq_right hcap]
    subst hnow
    rfl

/-- Closed form of one distributed-tier check on an existing key under a
monotone clock. -/
theorem allowActionLua_eq (st : RedisBucketState) (rate burst : ℚ)
    (now l : Int) (tk : ℚ) (htk : st.tokens = some tk) (hl : st.last = some l)
    (hle : l ≤ now) :
    allowActionLua st rate burst now =
      (if 1 ≤ min burst (tk + ((now - l : Int) : ℚ) * rate / 1000) then
        (⟨some (min burst (tk + ((now - l : Int) : ℚ) * rate / 1000) - 1),
          some now⟩, true)
      else
        (⟨some (min burst (tk + ((now - l : Int) : ℚ) * rate / 1000)),
          some now⟩, false)) := by
  unfold allowActionLua
  rw [htk, hl]
  have hd : max 0 (now - l) = now - l := max_eq_right (by omega)
  simp only [Option.getD_some, hd]

/-- C5: on both tiers a check refills to tokens' = min(capacity, stored +
elapsed_seconds × rate), admits iff tokens' ≥ 1 (storing tokens' − 1), and
on denial still stores the refilled sub-1 value.  Local tier: elapsed in
seconds; distributed tier: elapsed in milliseconds, so `delta * rate /
1000` is elapsed_seconds × rate. -/
theorem C5_refill_law :
    (∀ (b : TokenBucket) (now : ℚ), b.lastRefill ≤ now → b.tokens ≤ b.capacity →
      b.allow now =
        (if 1 ≤ min b.capacity (b.tokens + (now - b.lastRefill) * b.rate) then
          ({ tokens := min b.capacity (b.tokens + (now - b.lastRefill) * b.rate) - 1,
             lastRefill := now, rate := b.rate, capacity := b.capacity }, true)
        else
          ({ tokens := min b.capacity (b.tokens + (now - b.lastRefill) * b.rate),
             lastRefill := now, rate := b.rate, capacity := b.capacity }, false))) ∧
    (∀ (st : RedisBucketState) (rate burst : ℚ) (now l : Int) (tk : ℚ),
      st.tokens = some tk → st.last = some l → l ≤ now →
      allowActionLua st rate burst now =
        (if 1 ≤ min burst (tk + ((now - l : Int) : ℚ) * rate / 1000) then
          (⟨some (min burst (tk + ((now - l : Int) : ℚ) * rate / 1000) - 1),
            some now⟩, true)
        else
          (⟨some (min burst (tk + ((now - l : Int) : ℚ) * rate / 1000)),
            some now⟩, false))) :=
  ⟨tokenBucket_allow_eq, allowActionLua_eq⟩

/-- C5 witness: both closed forms evaluated at concrete checks — a full
local bucket (5 tokens, capacity 5) admits and stores 4; a distributed
bucket with 5 tokens refilled over 1 s at rate 1 admits and stores
min(5, 5 + 1) − 1 = 4. -/
theorem C5_refill_law_witness :
    TokenBucket.allow ⟨5, 0, 1, 5⟩ 0 = (⟨4, 0, 1, 5⟩, true) ∧
    allowActionLua ⟨some 5, some 0⟩ 1 5 1000 = (⟨some 4, some 1000⟩, true) := by
  constructor
  · have h := C5_refill_law.1 ⟨5, 0, 1, 5⟩ 0 (by norm_num) (by norm_num)
    rw [h]
    norm_num
  · have h := C5_refill_law.2 ⟨some 5, some 0⟩ 1 5 1000 0 5 rfl rfl (by norm_num)
    rw [h]
    norm_num

/-- One local-tier check preserves `0 ≤ tokens ≤ capacity` (and leaves the
bucket's rate and capacity untouched), for any check time, given a
nonnegative refill rate. -/
theorem tokenBucket_allow_invariant (b : TokenBucket) (now : ℚ)
    (hr : 0 ≤ b.rate) (h0 : 0 ≤ b.tokens) (hc : b.tokens ≤ b.capacity) :
    0 ≤ ((b.allow now).1).tokens ∧
    ((b.allow now).1).tokens ≤ ((b.allow now).1).capacity ∧
    ((b.allow now).1).rate = b.rate ∧
    ((b.allow now).1).capacity = b.capacity := by
  have hcap0 : 0 ≤ b.capacity := le_trans h0 hc
  simp only [TokenBucket.allow]
  split_ifs with h1 h2 h3 h4 h5 <;>
    refine ⟨?_, ?_, ?_, ?_⟩ <;>
      simp_all <;>
        first
        | linarith
        | nlinarith [mul_nonneg (sub_nonneg.2 (le_of_lt h1)) hr]

/-- One distributed-tier check preserves `0 ≤ tokens ≤ burst` on the stored
count, for any check time, given nonnegative rate and burst. -/
theorem allowActionLua_invariant (st : RedisBucketState) (rate burst : ℚ)
    (now : Int) (hr : 0 ≤ rate) (hb : 0 ≤ burst)
    (hst : ∀ tk, st.tokens = some tk → 0 ≤ tk ∧ tk ≤ burst) :
    ∀ tk, ((allowActionLua st rate burst now).1).tokens = some tk →
      0 ≤ tk ∧ tk ≤ burst := by
  intro tk htk
  have htok0 : 0 ≤ st.tokens.getD burst := by
    cases hcase : st.tokens with
    | none => simpa using hb
    | some v => simpa using (hst v hcase).1
  have hdelta : (0 : ℚ) ≤ ((max 0 (now - (st.last.getD now)) : Int) : ℚ) := by
    have : (0 : Int) ≤ max 0 (now - (st.last.getD now)) := le_max_left _ _
    exact_mod_cast this
  have hrefill : 0 ≤ st.tokens.getD burst +
      ((max 0 (now - (st.last.getD now)) : Int) : ℚ) * rate / 1000 := by
    have : 0 ≤ ((max 0 (now - (st.last.getD now)) : Int) : ℚ) * rate / 1000 :=
      div_nonneg (mul_nonneg hdelta hr) (by norm_num)
    linarith
  have hmin0 : 0 ≤ min burst (st.tokens.getD burst +
      ((max 0 (now - (st.last.getD now)) : Int) : ℚ) * rate / 1000) :=
    le_min hb hrefill
  have hminb : min burst (st.tokens.getD burst +
      ((max 0 (now - (st.last.getD now)) : Int) : ℚ) * rate / 1000) ≤ burst :=
    min_le_left _ _
  unfold allowActionLua at htk
  by_cases hone : (1 : ℚ) ≤ min burst (st.tokens.getD burst +
      ((max 0 (now - (st.last.getD now)) : Int) : ℚ) * rate / 1000)
  · simp only [if_pos hone] at htk
    simp only [Option.some.injEq] at htk
    subst htk
    constructor
    · linarith
    · linarith
  · simp only [if_neg hone] at htk
    simp only [Option.some.injEq] at htk
    subst htk
    exact ⟨hmin0, hminb⟩

/-- C7: along every sequence of checks at arbitrary timestamps, the stored
token count stays in `[0, capacity]` on the local tier and in `[0, burst]`
on the distributed tier (given nonnegative configured rate and capacity and
an initially in-range count; `PostChat` creates local buckets full and the
Lua script initialises fresh keys at `burst`). -/
theorem C7_token_invariant :
    (∀ (ts : List ℚ) (b : TokenBucket), 0 ≤ b.rate → 0 ≤ b.tokens →
      b.tokens ≤ b.capacity →
      0 ≤ (runLocalChecks b ts).tokens ∧
      (runLocalChecks b ts).tokens ≤ (runLocalChecks b ts).capacity) ∧
    (∀ (ts : List Int) (rate burst : ℚ) (st : RedisBucketState),
      0 ≤ rate → 0 ≤ burst →
      (∀ tk, st.tokens = some tk → 0 ≤ tk ∧ tk ≤ burst) →
      ∀ tk, (runRedisChecks rate burst st ts).tokens = some tk →
        0 ≤ tk ∧ tk ≤ burst) := by
  constructor
  · intro ts
    induction ts with
    | nil => intro b _ h0 hc; exact ⟨h0, hc⟩
    | cons t rest ih =>
      intro b hr h0 hc
      obtain ⟨s0, s1, srate, _⟩ := tokenBucket_allow_invariant b t hr h0 hc
      have hrec := ih ((b.allow t).1) (by rw [srate]; exact hr) s0 s1
      simpa [runLocalChecks] using hrec
  · intro ts
    induction ts with
    | nil => intro rate burst st _ _ hst; exact hst
    | cons t rest ih =>
      intro rate burst st hr hb hst
      have step := allowActionLua_invariant st rate burst t hr hb hst
      have := ih rate burst ((allowActionLua st rate burst t).1) hr hb step
      simpa [runRedisChecks] using this

/-- C7 witness: a burst of three checks on a full local bucket of capacity
2 (rate 1) and two checks on a fresh distributed key (rate 1, burst 2) both
leave the stored count within range. -/
theorem C7_token_invariant_witness :
    (0 ≤ (runLocalChecks ⟨2, 0, 1, 2⟩ [0, 0, 0]).tokens ∧
      (runLocalChecks ⟨2, 0, 1, 2⟩ [0, 0, 0]).tokens ≤
        (runLocalChecks ⟨2, 0, 1, 2⟩ [0, 0, 0]).capacity) ∧
    (∀ tk, (runRedisChecks 1 2 ⟨none, none⟩ [0, 0]).tokens = some tk →
      0 ≤ tk ∧ tk ≤ 2) :=
  ⟨C7_token_invariant.1 [0, 0, 0] ⟨2, 0, 1, 2⟩ (by norm_num) (by norm_num)
      (by norm_num),
   C7_token_invariant.2 [0, 0] 1 2 ⟨none, none⟩ (by norm_num) (by norm_num)
      (by intro tk h; simp at h)⟩

/-! ## C4 — distributed-tier authority in `PostChat` -/

/-- C4 (counterexample): the claim asserts a reachable distributed-tier
denial means the action is denied.  On the code it is false: with Redis
reachable and returning a denial (`ok = false`, no error), `PostChat` still
enters the local-bucket branch; for a principal with no local bucket yet a
fresh full bucket (capacity 5, rate 1) is created and allows, so the post
is admitted despite the distributed denial. -/
theorem C4_distributed_authority_cex :
    postChatRateLimit (some (.ok false)) none 1 5 0 =
      (some ⟨4, 0, 1, 5⟩, true) := by
  norm_num [postChatRateLimit, TokenBucket.allow]

/-- C4 (amended): the distributed verdict is authoritative only when it
allows (the local bucket is then not consulted); whenever the distributed
tier denies, errors, or is absent, `PostChat` consults the local token
bucket for that single check (creating a fresh full bucket if the principal
has none) and admits iff the local bucket allows.  So a distributed-tier
failure never unconditionally admits the action, but a distributed-tier
denial can be overridden by a local-bucket allow. -/
theorem C4_distributed_authority :
    ∀ (lb : Option TokenBucket) (lr lB now : ℚ),
      postChatRateLimit (some (.ok true)) lb lr lB now = (lb, true) ∧
      (∀ r ∈ ([some (.ok false), some (.error ()), none] :
          List (Option (Except Unit Bool))),
        postChatRateLimit r lb lr lB now =
          (some ((lb.getD ⟨lB, now, lr, lB⟩).allow now).1,
           ((lb.getD ⟨lB, now, lr, lB⟩).allow now).2)) := by
  intro lb lr lB now
  constructor
  · simp [postChatRateLimit]
  · intro r hr
    simp only [List.mem_cons, List.not_mem_nil, or_false] at hr
    rcases hr with h | h | h <;> subst h <;> simp [postChatRateLimit]

/-- C4 witness: the amended theorem applied with Redis denying and no local
bucket (rate 1, burst 5, time 0) — the outcome equals the fresh local
bucket's own verdict. -/
theorem C4_distributed_authority_witness :
    postChatRateLimit (some (.ok false)) none 1 5 0 =
      (some ((TokenBucket.allow ⟨5, 0, 1, 5⟩ 0).1),
       (TokenBucket.allow ⟨5, 0, 1, 5⟩ 0).2) :=
  (C4_distributed_authority none 1 5 0).2 (some (.ok false)) (by simp)

/-! ## C8 — per-connection rate limiting on the read pump -/

/-- The refill step preserves the token cap and the configured maximum. -/
theorem refillClientRL_le_max (c : ClientRL) (now : Int)
    (h : c.tokens ≤ c.maxTokens) :
    (refillClientRL c now).tokens ≤ c.maxTokens ∧
    (refillClientRL c now).maxTokens = c.maxTokens := by
  unfold refillClientRL
  dsimp only
  split_ifs with h1 h2
  · exact ⟨le_refl _, rfl⟩
  · refine ⟨?_, rfl⟩
    show c.tokens + (now - c.lastRefill).tdiv c.refillPeriod ≤ c.maxTokens
    omega
  · exact ⟨h, rfl⟩

/-- C8: `NewClient` configures the per-connection bucket with capacity 20
and refill period 1 s (1 token/second, integer refill); on every delivered
frame the limiter runs before the frame is handled: with no token left the
frame is dropped and a rate-limit error is pushed (the connection stays
open and the loop continues — never a close), otherwise one token is
consumed and the frame is handled; the token count never exceeds the
20-token cap. -/
theorem C8_read_pump_rate_limit :
    (∀ now : Int, newClientRL now = ⟨20, 20, 1000000000, now⟩) ∧
    (∀ (c : ClientRL) (now : Int),
      ReadEffect.closeConnection ∉ (readPumpStep c true now).2) ∧
    (∀ (c : ClientRL) (now : Int), (refillClientRL c now).tokens ≤ 0 →
      readPumpStep c true now = (refillClientRL c now, [.pushRateLimitError])) ∧
    (∀ (c : ClientRL) (now : Int), 0 < (refillClientRL c now).tokens →
      readPumpStep c true now =
        ({ refillClientRL c now with
            tokens := (refillClientRL c now).tokens - 1 }, [.handleFrame])) ∧
    (∀ (c : ClientRL) (now : Int), c.tokens ≤ c.maxTokens →
      ((readPumpStep c true now).1).tokens ≤ c.maxTokens) := by
  refine ⟨fun now => rfl, ?_, ?_, ?_, ?_⟩
  · intro c now
    simp only [readPumpStep]
    split_ifs <;> simp_all
  · intro c now h
    simp only [readPumpStep, Bool.true_eq_false, if_false]
    rw [if_pos h]
  · intro c now h
    simp only [readPumpStep, Bool.true_eq_false, if_false]
    rw [if_neg (not_le.mpr h)]
  · intro c now h
    obtain ⟨hle, _⟩ := refillClientRL_le_max c now h
    simp only [readPumpStep, Bool.true_eq_false, if_false]
    split_ifs with h1
    · exact hle
    · simp
      omega

/-- C8 witness: a fresh client at time 0 reading a frame immediately — the
frame is handled (not dropped, not closed); and a drained client (0 tokens,
refill not yet due) has its next frame dropped with a rate-limit error. -/
theorem C8_read_pump_rate_limit_witness :
    readPumpStep (newClientRL 0) true 0 =
      (⟨19, 20, 1000000000, 0⟩, [.handleFrame]) ∧
    readPumpStep ⟨0, 20, 1000000000, 0⟩ true 500000000 =
      (⟨0, 20, 1000000000, 0⟩, [.pushRateLimitError]) := by
  constructor
  · have h := C8_read_pump_rate_limit.2.2.2.1 (newClientRL 0) 0 (by decide)
    rw [h]
    decide
  · have h := C8_read_pump_rate_limit.2.2.1 ⟨0, 20, 1000000000, 0⟩ 500000000
      (by decide)
    rw [h]
    decide

/-! ## C2 — publish only after membership and persistence -/

/-- C2: a `message.new` publish is emitted iff the payload decoded, the
membership check returned true without error, and persistence succeeded;
and every run of `handleMessageSend` either publishes exactly one message
or reports exactly one error to the sending connection (never both, never a
publish alongside a failure). -/
theorem C2_publish_gating :
    ∀ (uid : Nat) (env : SendEnv),
      ((∃ m, SendEffect.publish m ∈ handleMessageSend uid env) ↔
        (env.decoded.isSome = true ∧ env.isMember = .ok true ∧
          env.createRes = .ok ())) ∧
      ((∃ m, handleMessageSend uid env = [SendEffect.publish m]) ∨
        (∃ s, handleMessageSend uid env = [SendEffect.errorToSender s])) := by
  intro uid env
  obtain ⟨dec, mem, cr, nid⟩ := env
  cases dec with
  | none =>
    exact ⟨by simp [handleMessageSend], Or.inr ⟨_, rfl⟩⟩
  | some req =>
    cases mem with
    | error e =>
      cases e
      exact ⟨by simp [handleMessageSend], Or.inr ⟨_, rfl⟩⟩
    | ok b =>
      cases b with
      | false =>
        exact ⟨by simp [handleMessageSend], Or.inr ⟨_, rfl⟩⟩
      | true =>
        cases cr with
        | error e =>
          cases e
          exact ⟨by simp [handleMessageSend], Or.inr ⟨_, rfl⟩⟩
        | ok u =>
          cases u
          exact ⟨by simp [handleMessageSend], Or.inl ⟨_, rfl⟩⟩

/-- C2 witness: with a decoded payload, a positive membership answer and a
successful persist, a publish is emitted; flipping persistence to an error
yields no publish. -/
theorem C2_publish_gating_witness :
    (∃ m, SendEffect.publish m ∈
      handleMessageSend 5 ⟨some ⟨3, "hi"⟩, .ok true, .ok (), 9⟩) ∧
    ¬ (∃ m, SendEffect.publish m ∈
      handleMessageSend 5 ⟨some ⟨3, "hi"⟩, .ok true, .error (), 9⟩) :=
  ⟨(C2_publish_gating 5 ⟨some ⟨3, "hi"⟩, .ok true, .ok (), 9⟩).1.mpr
      ⟨rfl, rfl, rfl⟩,
   fun h =>
     by cases ((C2_publish_gating 5
          ⟨some ⟨3, "hi"⟩, .ok true, .error (), 9⟩).1.mp h).2.2⟩

/-! ## C10 — non-blocking error notification -/

/-- C10: pushing an error notification never blocks: with room in the
256-slot outbound buffer the error frame is appended; with the buffer full
the call returns with the queue unchanged, silently discarding the error —
and along any sequence of such pushes the queue never grows past 256. -/
theorem C10_sendError_nonblocking :
    (∀ (q : List String) (msg : String),
      (q.length < wsSendCapacity → sendError q msg = q ++ [msg]) ∧
      (wsSendCapacity ≤ q.length → sendError q msg = q)) ∧
    (∀ (msgs : List String) (q : List String), q.length ≤ wsSendCapacity →
      (msgs.foldl sendError q).length ≤ wsSendCapacity) := by
  constructor
  · intro q msg
    constructor
    · intro h
      simp [sendError, h]
    · intro h
      simp [sendError, not_lt.mpr h]
  · intro msgs
    induction msgs with
    | nil => intro q h; simpa using h
    | cons m rest ih =>
      intro q h
      rw [List.foldl_cons]
      apply ih
      unfold sendError
      split_ifs with h1
      · simp
        omega
      · exact h

/-- C10 witness: on an empty queue the error is appended; on a full
256-element queue the error is silently dropped. -/
theorem C10_sendError_nonblocking_witness :
    sendError [] "rate_limited" = [] ++ ["rate_limited"] ∧
    sendError (List.replicate 256 "x") "rate_limited" =
      List.replicate 256 "x" :=
  ⟨(C10_sendError_nonblocking.1 [] "rate_limited").1 (by decide),
   (C10_sendError_nonblocking.1 (List.replicate 256 "x") "rate_limited").2
     (by rw [List.length_replicate]; decide)⟩

/-! ## Moderation bot lemmas -/

/-- When some banned word matches, the loop returns a matching word of the
list (the first one). -/
theorem findBanned_some_of_match (body : String) (bws : List BannedWord)
    (h : ∃ bw ∈ bws, strContains body bw.word = true) :
    ∃ bw ∈ bws, strContains body bw.word = true ∧
      findBanned body bws = some bw := by
  induction bws with
  | nil => simp at h
  | cons b rest ih =>
    by_cases hb : strContains body b.word = true
    · exact ⟨b, by simp, hb, by simp [findBanned, hb]⟩
    · obtain ⟨bw, hmem, hc⟩ := h
      rcases List.mem_cons.mp hmem with heq | hmem2
      · subst heq
        exact absurd hc hb
      · obtain ⟨bw2, hm2, hc2, hf2⟩ := ih ⟨bw, hmem2, hc⟩
        exact ⟨bw2, List.mem_cons_of_mem _ hm2, hc2,
          by simp [findBanned, hb, hf2]⟩

/-- The spam check in closed form: the sender's pruned window plus the new
message is stored, and the enforcement triple fires iff the new body
already occurred at least 3 times in the pruned window. -/
theorem spamCheck_eq (w : Windows) (m : Message) (now : Int) :
    spamCheck w m now =
      (setWindow w m.senderID
        ((pruneAndCount now m.body (w m.senderID)).1 ++ [⟨m.body, now⟩]),
       if 3 ≤ (pruneAndCount now m.body (w m.senderID)).2 then
         [.addModeration m.conversationID m.senderID "mute" muteDurationNs,
          .addLog "timeout_spam" "spam repeated" m.id m.senderID,
          .deleteMessage m.id]
       else []) := by
  unfold spamCheck
  dsimp only
  split_ifs with h <;> rfl

/-- The pruning loop keeps at most as many entries as it scans, and counts
at most as many duplicates as it scans. -/
theorem pruneAndCount_le (now : Int) (body : String) (arr : List RecentMsg) :
    (pruneAndCount now body arr).1.length ≤ arr.length ∧
    (pruneAndCount now body arr).2 ≤ arr.length := by
  suffices h : ∀ (arr : List RecentMsg) (acc : List RecentMsg × Nat),
      (arr.foldl
        (fun acc rm =>
          if now - rm.ts ≤ spamWindowNs then
            (acc.1 ++ [rm], if rm.body = body then acc.2 + 1 else acc.2)
          else acc) acc).1.length ≤ acc.1.length + arr.length ∧
      (arr.foldl
        (fun acc rm =>
          if now - rm.ts ≤ spamWindowNs then
            (acc.1 ++ [rm], if rm.body = body then acc.2 + 1 else acc.2)
          else acc) acc).2 ≤ acc.2 + arr.length by
    have := h arr ([], 0)
    simpa [pruneAndCount] using this
  intro arr
  induction arr with
  | nil => intro acc; simp
  | cons rm rest ih =>
    intro acc
    rw [List.foldl_cons]
    by_cases hc : now - rm.ts ≤ spamWindowNs
    · by_cases hb : rm.body = body
      · have hstep := ih (acc.1 ++ [rm], acc.2 + 1)
        rw [if_pos hc, if_pos hb]
        dsimp only at hstep
        simp only [List.length_append, List.length_singleton,
          List.length_cons, List.length_nil] at hstep ⊢
        omega
      · have hstep := ih (acc.1 ++ [rm], acc.2)
        rw [if_pos hc, if_neg hb]
        dsimp only at hstep
        simp only [List.length_append, List.length_singleton,
          List.length_cons, List.length_nil] at hstep ⊢
        omega
    · have hstep := ih acc
      rw [if_neg hc]
      simp only [List.length_cons] at hstep ⊢
      omega

/-- A window bound propagates through one spam-only bot step, and while the
bound is below 3 the step takes no enforcement action. -/
theorem spam_step_bound (w : Windows) (m : Message) (t : Int) (n : Nat)
    (hw : ∀ s, (w s).length ≤ n) :
    (∀ s, ((processMessage (.ok []) w m t).1 s).length ≤ n + 1) ∧
    (n < 3 → (processMessage (.ok []) w m t).2 = []) := by
  have heq : processMessage (.ok []) w m t = spamCheck w m t := by
    simp [processMessage]
  rw [heq, spamCheck_eq]
  constructor
  · intro s
    simp only [setWindow]
    by_cases hs : s = m.senderID
    · rw [if_pos hs]
      have h1 := (pruneAndCount_le t m.body (w m.senderID)).1
      have h2 := hw m.senderID
      simp
      omega
    · rw [if_neg hs]
      exact le_trans (hw s) (Nat.le_succ n)
  · intro hn
    have h1 := (pruneAndCount_le t m.body (w m.senderID)).2
    have h2 := hw m.senderID
    have : (pruneAndCount t m.body (w m.senderID)).2 < 3 := by omega
    simp [Nat.not_le.mpr this]

/-! ## C6 — banned-word filter -/

/-- C6: when the banned-word lookup succeeds and some registered word for
the conversation matches the body case-insensitively as a substring
(including inside other words), the bot deletes the message, writes exactly
one `delete_word` log whose reason is the matched word, and stops: the
effect list is exactly the delete and that single log (no mute, so the
spam heuristic never ran) and the sender's recent-message windows are
returned unchanged (the message is not added). -/
theorem C6_banned_word_filter :
    ∀ (bws : List BannedWord) (w : Windows) (m : Message) (now : Int),
      (∃ bw ∈ bws, strContains m.body bw.word = true) →
      ∃ bw ∈ bws, strContains m.body bw.word = true ∧
        processMessage (.ok bws) w m now =
          (w, [.deleteMessage m.id,
               .addLog "delete_word" bw.word m.id m.senderID]) := by
  intro bws w m now h
  obtain ⟨bw, hmem, hc, hf⟩ := findBanned_some_of_match m.body bws h
  refine ⟨bw, hmem, hc, ?_⟩
  have hlen : 0 < bws.length := by
    cases bws with
    | nil => simp at hmem
    | cons b rest => simp
  simp [processMessage, hlen, hf]

/-- C6 witness: the spec's own vector — banned word "spam", body
"This is SPAM now" — is deleted with one `delete_word` log whose reason is
"spam", and the windows stay empty. -/
theorem C6_banned_word_filter_witness :
    ∃ bw ∈ [BannedWord.mk "spam"], strContains "This is SPAM now" bw.word = true ∧
      processMessage (.ok [⟨"spam"⟩]) emptyWindows ⟨1, 5, 9, "This is SPAM now"⟩ 0 =
        (emptyWindows, [.deleteMessage 1, .addLog "delete_word" bw.word 1 9]) :=
  C6_banned_word_filter [⟨"spam"⟩] emptyWindows ⟨1, 5, 9, "This is SPAM now"⟩ 0
    ⟨⟨"spam"⟩, by simp, by decide⟩

/-! ## C9 — banned-word lookup failure fails open -/

/-- C9: when `GetBannedWords` errors, the filter is skipped entirely — the
step behaves exactly as if no banned words were configured, never emits a
`delete_word` log, proceeds to the spam heuristic (the message is appended
to the sender's pruned window), and deletes the message only if the spam
trigger fired. -/
theorem C9_banned_lookup_fail_open :
    ∀ (w : Windows) (m : Message) (now : Int),
      processMessage (.error ()) w m now = processMessage (.ok []) w m now ∧
      ((processMessage (.error ()) w m now).1) m.senderID =
        (pruneAndCount now m.body (w m.senderID)).1 ++ [⟨m.body, now⟩] ∧
      (∀ r mi tu, BotEffect.addLog "delete_word" r mi tu ∉
        (processMessage (.error ()) w m now).2) ∧
      (BotEffect.deleteMessage m.id ∈ (processMessage (.error ()) w m now).2 →
        3 ≤ (pruneAndCount now m.body (w m.senderID)).2) := by
  intro w m now
  have herr : processMessage (.error ()) w m now = spamCheck w m now := by
    simp [processMessage]
  have hok : processMessage (.ok []) w m now = spamCheck w m now := by
    simp [processMessage]
  refine ⟨herr.trans hok.symm, ?_, ?_, ?_⟩
  · rw [herr, spamCheck_eq]
    simp [setWindow]
  · intro r mi tu
    rw [herr, spamCheck_eq]
    dsimp only
    split_ifs <;> simp
  · intro hmem
    rw [herr, spamCheck_eq] at hmem
    dsimp only at hmem
    by_cases h3 : 3 ≤ (pruneAndCount now m.body (w m.senderID)).2
    · exact h3
    · rw [if_neg h3] at hmem
      simp at hmem

/-- C9 witness: with an erroring lookup and a body that would match a
banned word, the message is not deleted and no `delete_word` log is
written; the body is recorded in the sender's window. -/
theorem C9_banned_lookup_fail_open_witness :
    ((processMessage (.error ()) emptyWindows ⟨1, 5, 9, "SPAM"⟩ 0).1) 9 =
      [] ++ [⟨"SPAM", 0⟩] ∧
    (∀ r mi tu, BotEffect.addLog "delete_word" r mi tu ∉
      (processMessage (.error ()) emptyWindows ⟨1, 5, 9, "SPAM"⟩ 0).2) :=
  ⟨(C9_banned_lookup_fail_open emptyWindows ⟨1, 5, 9, "SPAM"⟩ 0).2.1,
   (C9_banned_lookup_fail_open emptyWindows ⟨1, 5, 9, "SPAM"⟩ 0).2.2.1⟩

/-! ## C3 — spam heuristic threshold -/

/-- C3 (counterexample): the claim asserts that the 3rd identical message
within 10 seconds is muted and deleted.  On the code it is false: the
repeat counter counts only PRIOR in-window occurrences (the new message is
appended after counting), so three identical messages from sender 9 at
t = 0 s, 1 s, 2 s produce no effect at all — the 3rd message sees only 2
prior occurrences and `repeatCount >= 3` fails. -/
theorem C3_spam_heuristic_cex :
    (runBot (.ok []) emptyWindows
      [(⟨1, 5, 9, "hello"⟩, 0), (⟨2, 5, 9, "hello"⟩, 1000000000),
       (⟨3, 5, 9, "hello"⟩, 2000000000)]).2 = [[], [], []] := by
  decide

/-- C3 (amended): the sliding 10-second window is pruned on each message,
and the mute fires when the new message's body already occurred at least 3
times among the surviving prior entries — i.e. on the 4th identical message
within 10 seconds, not the 3rd.  (a) Any three messages from a fresh start
produce no action, regardless of bodies or timing; (b) four identical
messages within 10 seconds produce exactly one action, on the 4th: a
5-minute mute of the sender in that conversation, one `timeout_spam` log,
and deletion of the 4th (triggering) message; (c) if the 4th identical
message arrives after the earlier three have left the 10-second window, it
produces no action based on them. -/
theorem C3_spam_heuristic :
    (∀ (m1 m2 m3 : Message) (t0 t1 t2 : Int),
      (runBot (.ok []) emptyWindows [(m1, t0), (m2, t1), (m3, t2)]).2 =
        [[], [], []]) ∧
    (∀ (u : Nat) (bd : String) (i1 i2 i3 i4 c1 c2 c3 c4 : Nat)
        (t0 t1 t2 t3 : Int),
      t0 ≤ t1 → t1 ≤ t2 → t2 ≤ t3 → t3 - t0 ≤ spamWindowNs →
      (runBot (.ok []) emptyWindows
        [(⟨i1, c1, u, bd⟩, t0), (⟨i2, c2, u, bd⟩, t1),
         (⟨i3, c3, u, bd⟩, t2), (⟨i4, c4, u, bd⟩, t3)]).2 =
        [[], [], [],
         [.addModeration c4 u "mute" muteDurationNs,
          .addLog "timeout_spam" "spam repeated" i4 u,
          .deleteMessage i4]]) ∧
    (∀ (u : Nat) (bd : String) (i1 i2 i3 i4 c1 c2 c3 c4 : Nat)
        (t0 t1 t2 t3 : Int),
      t0 ≤ t1 → t1 ≤ t2 → t2 - t0 ≤ spamWindowNs → spamWindowNs < t3 - t2 →
      (runBot (.ok []) emptyWindows
        [(⟨i1, c1, u, bd⟩, t0), (⟨i2, c2, u, bd⟩, t1),
         (⟨i3, c3, u, bd⟩, t2), (⟨i4, c4, u, bd⟩, t3)]).2 =
        [[], [], [], []]) := by
  refine ⟨?_, ?_, ?_⟩
  · intro m1 m2 m3 t0 t1 t2
    have hw0 : ∀ s, (emptyWindows s).length ≤ 0 := by
      intro s
      simp [emptyWindows]
    obtain ⟨hb1, he1⟩ := spam_step_bound emptyWindows m1 t0 0 hw0
    obtain ⟨hb2, he2⟩ :=
      spam_step_bound ((processMessage (.ok []) emptyWindows m1 t0).1) m2 t1 1 hb1
    obtain ⟨hb3, he3⟩ :=
      spam_step_bound ((processMessage (.ok [])
        ((processMessage (.ok []) emptyWindows m1 t0).1) m2 t1).1) m3 t2 2 hb2
    simp [runBot, he1 (by norm_num), he2 (by norm_num), he3 (by norm_num)]
  · intro u bd i1 i2 i3 i4 c1 c2 c3 c4 t0 t1 t2 t3 h01 h12 h23 h30
    have h10 : t1 ≤ spamWindowNs + t0 := by omega
    have h20 : t2 ≤ spamWindowNs + t0 := by omega
    have h21 : t2 ≤ spamWindowNs + t1 := by omega
    have h30' : t3 ≤ spamWindowNs + t0 := by omega
    have h31 : t3 ≤ spamWindowNs + t1 := by omega
    have h32 : t3 ≤ spamWindowNs + t2 := by omega
    simp [runBot, processMessage, spamCheck, pruneAndCount, setWindow,
      emptyWindows, h10, h20, h21, h30', h31, h32]
  · intro u bd i1 i2 i3 i4 c1 c2 c3 c4 t0 t1 t2 t3 h01 h12 h20 h3
    have h10 : t1 ≤ spamWindowNs + t0 := by omega
    have h20' : t2 ≤ spamWindowNs + t0 := by omega
    have h21 : t2 ≤ spamWindowNs + t1 := by omega
    have hn0 : ¬ (t3 ≤ spamWindowNs + t0) := by omega
    have hn1 : ¬ (t3 ≤ spamWindowNs + t1) := by omega
    have hn2 : ¬ (t3 ≤ spamWindowNs + t2) := by omega
    simp [runBot, processMessage, spamCheck, pruneAndCount, setWindow,
      emptyWindows, h10, h20', h21, hn0, hn1, hn2]

/-- C3 witness: the amended theorem's trigger case at sender 9, body
"hello", messages at t = 0 s, 1 s, 2 s, 3 s — only the 4th message is
acted on: one 5-minute mute, one `timeout_spam` log, deletion of message
4. -/
theorem C3_spam_heuristic_witness :
    (runBot (.ok []) emptyWindows
      [(⟨1, 5, 9, "hello"⟩, 0), (⟨2, 5, 9, "hello"⟩, 1000000000),
       (⟨3, 5, 9, "hello"⟩, 2000000000), (⟨4, 5, 9, "hello"⟩, 3000000000)]).2 =
      [[], [], [],
       [.addModeration 5 9 "mute" muteDurationNs,
        .addLog "timeout_spam" "spam repeated" 4 9,
        .deleteMessage 4]] :=
  C3_spam_heuristic.2.1 9 "hello" 1 2 3 4 5 5 5 5 0 1000000000 2000000000
    3000000000 (by omega) (by omega) (by omega) (by decide)

end Tullo
